import Mathlib

/-!
Shallow embedding of the Janus policy decision point (PDP): the policy
data model, the pattern / amount matching rules, the per-policy outcome, and
the multi-policy precedence resolution, as implemented in
`janus_agent/core/pdp.py` and `janus_agent/core/policy_repository.py`.

Dynamic attribute values are modelled by a small tagged union `Value`
(number, string, boolean); the places where the Python code would raise a
runtime exception (comparing a string amount against a numeric bound, or
calling `startswith` on a non-string) are modelled with `Except PdpError`.
-/

namespace Janus

/-- A dynamic attribute value: number, string, or boolean (as in the
`attrs` mapping of an evaluation request). -/
inductive Value where
  | num (n : Int)
  | str (s : String)
  | bool (b : Bool)
deriving DecidableEq, Repr

/-- Runtime errors the Python implementation can raise while matching. -/
inductive PdpError where
  | typeError
  | attributeError
deriving DecidableEq, Repr

/-- An insertion-ordered string-keyed dictionary of dynamic values
(the evaluation context / the `attrs` mapping). -/
abbrev Dict := List (String × Value)

/-- Python dict assignment `d[k] = v`: overwrite in place when the key is
present (keeping its position), append otherwise. -/
def dictInsert (d : Dict) (k : String) (v : Value) : Dict :=
  if d.any (fun kv => kv.1 == k) then
    d.map (fun kv => if kv.1 == k then (k, v) else kv)
  else
    d ++ [(k, v)]

/-- Python `d.get(k)` on the context dictionary: the value stored at the
key, if any (keys are kept unique by `dictInsert`). -/
def dictLookup (d : Dict) (k : String) : Option Value :=
  match d with
  | [] => none
  | kv :: rest => if kv.1 == k then some kv.2 else dictLookup rest k

/-- Python `d.get(k, default)`. -/
def dictGetD (d : Dict) (k : String) (dflt : Value) : Value :=
  (dictLookup d k).getD dflt

/-- A loaded policy record (fields as normalised by the repository loader:
`level`, `priority`, `subject`, `resource`, `effect` carry their defaults,
the `match` mapping is reduced to its two recognised numeric constraints). -/
structure Policy where
  id : String
  level : String := "agent"
  priority : Int := 50
  action : String
  subject : String := "*"
  resource : String := "*"
  effect : String := "deny"
  amountMax : Option Int := none
  amountMin : Option Int := none
  description : String := ""
deriving DecidableEq, Repr

/-- The policy store: an insertion-ordered dictionary keyed by policy id
(Python `self.policies: Dict[str, Dict]`). -/
structure PolicyRepository where
  policies : List (String × Policy)
deriving DecidableEq, Repr

/-- Python dict assignment for the policy store, same overwrite-in-place
semantics as `dictInsert`. -/
def polInsert (d : List (String × Policy)) (k : String) (v : Policy) :
    List (String × Policy) :=
  if d.any (fun kv => kv.1 == k) then
    d.map (fun kv => if kv.1 == k then (k, v) else kv)
  else
    d ++ [(k, v)]

/-- Python `PolicyRepository.add_policy`: skip a policy whose id is empty
(falsy), otherwise insert/overwrite by id. -/
def PolicyRepository.addPolicy (r : PolicyRepository) (p : Policy) :
    PolicyRepository :=
  if p.id = "" then r else { policies := polInsert r.policies p.id p }

/-- Python `PolicyRepository.list`: all stored policies (dict values, in order). -/
def PolicyRepository.list (r : PolicyRepository) : List Policy :=
  r.policies.map (fun kv => kv.2)

/-- Python `PolicyRepository.size`: number of stored policies. -/
def PolicyRepository.size (r : PolicyRepository) : Nat :=
  r.policies.length

/-- Python `PolicyRepository.get`: point lookup by id. -/
def PolicyRepository.get (r : PolicyRepository) (id : String) : Option Policy :=
  ((r.policies.find? (fun kv => kv.1 == id)).map (fun kv => kv.2))

/-- Python `str.endswith(suffix)` (structurally computable form). -/
def strEndsWith (s suffix : String) : Bool :=
  suffix.data.isSuffixOf s.data

/-- Python `str.startswith(pre)` (structurally computable form). -/
def strStartsWith (s pre : String) : Bool :=
  pre.data.isPrefixOf s.data

/-- Python `s[:-1]`: the string without its last character. -/
def strDropLast (s : String) : String :=
  ⟨s.data.dropLast⟩

/-- Python `_matches_pattern(pattern, value)` on two strings: `*`, exact, or a
single trailing-`*` prefix pattern. -/
def matchesPattern (pattern value : String) : Bool :=
  if pattern == "*" then true
  else if pattern == value then true
  else if strEndsWith pattern "*" then strStartsWith value (strDropLast pattern)
  else false

/-- Python `_matches_pattern` applied to a dynamic context value, following the
Python control flow: `pattern == "*"` always matches; `pattern == value` is
false across types; a trailing-`*` pattern calls `value.startswith`, which
raises `AttributeError` on a non-string value. -/
def matchesPatternVal (pattern : String) (v : Value) : Except PdpError Bool :=
  match v with
  | .str s => .ok (matchesPattern pattern s)
  | _ =>
    if pattern == "*" then .ok true
    else if strEndsWith pattern "*" then .error .attributeError
    else .ok false

/-- The `amount_max` failure test `context.get("amount", float("inf")) >
bound`: a missing amount is +infinity (greater than every finite bound), a
boolean is its integer value, a string amount raises `TypeError`. -/
def amountGtBound (amount : Option Value) (bound : Int) : Except PdpError Bool :=
  match amount with
  | none => .ok true
  | some (.num n) => .ok (decide (bound < n))
  | some (.bool b) => .ok (decide (bound < (if b then (1 : Int) else 0)))
  | some (.str _) => .error .typeError

/-- The `amount_min` failure test `context.get("amount", 0) < bound`: a
missing amount is 0, a boolean is its integer value, a string amount raises
`TypeError`. -/
def amountLtBound (amount : Option Value) (bound : Int) : Except PdpError Bool :=
  match amount with
  | none => .ok (decide ((0 : Int) < bound))
  | some (.num n) => .ok (decide (n < bound))
  | some (.bool b) => .ok (decide ((if b then (1 : Int) else 0) < bound))
  | some (.str _) => .error .typeError

/-- Python `_matches(policy, context)`: action, subject and resource patterns in
that order, then the `amount_max` / `amount_min` constraints, with the
short-circuit order of the Python code. -/
def matchesP (p : Policy) (ctx : Dict) : Except PdpError Bool :=
  match matchesPatternVal p.action (dictGetD ctx "action" (.str "")) with
  | .error e => .error e
  | .ok false => .ok false
  | .ok true =>
    match matchesPatternVal p.subject (dictGetD ctx "subject" (.str "")) with
    | .error e => .error e
    | .ok false => .ok false
    | .ok true =>
      match matchesPatternVal p.resource (dictGetD ctx "resource" (.str "*")) with
      | .error e => .error e
      | .ok false => .ok false
      | .ok true =>
        match p.amountMax with
        | some b =>
          match amountGtBound (dictLookup ctx "amount") b with
          | .error e => .error e
          | .ok true => .ok false
          | .ok false =>
            match p.amountMin with
            | some b2 =>
              match amountLtBound (dictLookup ctx "amount") b2 with
              | .error e => .error e
              | .ok true => .ok false
              | .ok false => .ok true
            | none => .ok true
        | none =>
          match p.amountMin with
          | some b2 =>
            match amountLtBound (dictLookup ctx "amount") b2 with
            | .error e => .error e
            | .ok true => .ok false
            | .ok false => .ok true
          | none => .ok true

/-- Python `_result_for_single_policy`: the per-policy outcome string. -/
def resultForSinglePolicy (p : Policy) (matched : Bool) : String :=
  if !matched then "not_applicable"
  else if p.effect == "deny" then "deny"
  else if p.effect == "allow" then "allow"
  else if p.effect == "require_approval" then "require_approval"
  else "unknown"

/-- One entry of the per-policy trace produced by `evaluate_all` (the
boolean field is keyed "matches" in the source dict). -/
structure MatchResult where
  policy : String
  level : String
  priority : Int
  effect : String
  matched : Bool
  result : String
deriving DecidableEq, Repr

/-- The final decision record. -/
structure FinalDecision where
  allow : Bool
  effect : String
  reason : String
  matchedPolicy : String
deriving DecidableEq, Repr

/-- Python `LEVEL_ORDER.get(level, 3)`: enterprise 1, domain 2, agent 3,
runtime 4, anything else 3. -/
def levelOrder (level : String) : Int :=
  if level == "enterprise" then 1
  else if level == "domain" then 2
  else if level == "agent" then 3
  else if level == "runtime" then 4
  else 3

/-- The comparison used by the stable sort of `_compute_final_decision` on
the composite key `(levelOrder level, priority)` (lexicographic,
ascending); Python's `sorted` and `List.insertionSort` are both stable, so
they agree on this total preorder. -/
def KeyLe (a b : MatchResult) : Prop :=
  levelOrder a.level < levelOrder b.level ∨
    (levelOrder a.level = levelOrder b.level ∧ a.priority ≤ b.priority)

instance : DecidableRel KeyLe := fun a b => by
  unfold KeyLe
  exact inferInstance

instance : IsTotal MatchResult KeyLe := by
  constructor
  intro a b
  unfold KeyLe
  omega

instance : IsTrans MatchResult KeyLe := by
  constructor
  intro a b c
  unfold KeyLe
  omega

/-- The `applicable` list of `_compute_final_decision`: results whose
policy matched. -/
def applicableOf (matchResults : List MatchResult) : List MatchResult :=
  matchResults.filter (fun m => m.matched)

/-- The `applicable_sorted` list of `_compute_final_decision`: the matched
results stably sorted by `(level rank, priority)`. -/
def sortedApplicable (matchResults : List MatchResult) : List MatchResult :=
  List.insertionSort KeyLe (applicableOf matchResults)

/-- The three effect-precedence scans of `_compute_final_decision` over the
sorted applicable list: first deny, else first require_approval, else first
allow, else the defensive default-deny fallback. -/
def scanDecision (srt : List MatchResult) : FinalDecision :=
  match srt.find? (fun m => m.result == "deny") with
  | some m =>
    { allow := false, effect := "deny",
      reason := "Deny by policy " ++ m.policy, matchedPolicy := m.policy }
  | none =>
    match srt.find? (fun m => m.result == "require_approval") with
    | some m =>
      { allow := false, effect := "require_approval",
        reason := "Approval required by policy " ++ m.policy,
        matchedPolicy := m.policy }
    | none =>
      match srt.find? (fun m => m.result == "allow") with
      | some m =>
        { allow := true, effect := "allow",
          reason := "Allow by policy " ++ m.policy,
          matchedPolicy := m.policy }
      | none =>
        { allow := false, effect := "deny", reason := "Default deny",
          matchedPolicy := "default-deny" }

/-- Python `_compute_final_decision`: default deny when nothing matched, otherwise
the effect-precedence scans over the sorted matched results. -/
def computeFinalDecision (matchResults : List MatchResult) : FinalDecision :=
  if (applicableOf matchResults).isEmpty then
    { allow := false, effect := "deny", reason := "No matching policies",
      matchedPolicy := "default-deny" }
  else
    scanDecision (sortedApplicable matchResults)

/-- Python `resource or "*"`: `None` and the empty string are falsy. -/
def resourceOrStar : Option String → String
  | none => "*"
  | some r => if r = "" then "*" else r

/-- The three positional bindings of the evaluation context. -/
def baseContext (subject action : String) (resource : Option String) : Dict :=
  [("subject", .str subject), ("action", .str action),
   ("resource", .str (resourceOrStar resource))]

/-- The evaluation context `{"subject": subject, "action": action,
"resource": resource or "*", **attrs}`: three positional bindings, then the
attrs entries merged on top (later keys overwrite). -/
def buildContext (subject action : String) (resource : Option String)
    (attrs : Dict) : Dict :=
  attrs.foldl (fun d kv => dictInsert d kv.1 kv.2)
    (baseContext subject action resource)

/-- The value the `**attrs` merge contributes for a key: the value of the
last entry of `attrs` carrying that key, if any. -/
def attrsOverride (attrs : Dict) (k : String) : Option Value :=
  match attrs with
  | [] => none
  | kv :: rest =>
    match attrsOverride rest k with
    | some v => some v
    | none => if kv.1 == k then some kv.2 else none

/-- The per-policy trace entry built inside the `evaluate_all` loop. -/
def mkMatchResult (p : Policy) (matched : Bool) : MatchResult :=
  { policy := p.id, level := p.level, priority := p.priority,
    effect := p.effect, matched := matched,
    result := resultForSinglePolicy p matched }

/-- The `for p in policies` loop of `evaluate_all`: one trace entry per
policy, in store order; a raised exception aborts the whole evaluation. -/
def evalPolicies : List Policy → Dict → Except PdpError (List MatchResult)
  | [], _ => .ok []
  | p :: ps, ctx =>
    match matchesP p ctx with
    | .error e => .error e
    | .ok m =>
      match evalPolicies ps ctx with
      | .error e => .error e
      | .ok rest => .ok (mkMatchResult p m :: rest)

/-- The value returned by `evaluate_all` (the trace list is keyed
"matches" in the source dict). -/
structure EvalOutput where
  matchList : List MatchResult
  final : FinalDecision
deriving DecidableEq, Repr

/-- Python `evaluate_all(subject, action, resource, attrs)`. -/
def evaluateAll (repo : PolicyRepository) (subject action : String)
    (resource : Option String := none) (attrs : Dict := []) :
    Except PdpError EvalOutput :=
  match evalPolicies repo.list (buildContext subject action resource attrs) with
  | .error e => .error e
  | .ok matchResults =>
    .ok { matchList := matchResults,
          final := computeFinalDecision matchResults }

/-- Python `evaluate(subject, action, resource, attrs)`: the final decision of
`evaluate_all`. -/
def evaluate (repo : PolicyRepository) (subject action : String)
    (resource : Option String := none) (attrs : Dict := []) :
    Except PdpError FinalDecision :=
  match evaluateAll repo subject action resource attrs with
  | .error e => .error e
  | .ok out => .ok out.final

/-! ### Concrete inputs used to exercise the claims -/

/-- A policy with the amount cap of the spec's amount-bounds property. -/
def pAmountMax999 : Policy :=
  { id := "p-max", action := "*", effect := "allow", amountMax := some 999 }

/-- A policy with the amount floor of the spec's amount-bounds property. -/
def pAmountMin10000 : Policy :=
  { id := "p-min", action := "*", effect := "allow", amountMin := some 10000 }

/-- An evaluation context carrying only a numeric amount attribute. -/
def ctxAmount (n : Int) : Dict :=
  [("subject", .str "s"), ("action", .str "payment.transfer"),
   ("resource", .str "*"), ("amount", .num n)]

/-- Two matched allow results on different hierarchy levels, used to
exercise the within-class tie-break. -/
def msPair : List MatchResult :=
  [{ policy := "ag", level := "agent", priority := 10,
     effect := "allow", matched := true, result := "allow" },
   { policy := "dom", level := "domain", priority := 20,
     effect := "allow", matched := true, result := "allow" }]

/-- A single matched result with the unrecognised outcome "unknown". -/
def msUnknown : List MatchResult :=
  [{ policy := "p-weird", level := "agent", priority := 50,
     effect := "frobnicate", matched := true, result := "unknown" }]

/-- A matched policy whose effect string is none of the three recognised
effects. -/
def pUnknownEffect : Policy :=
  { id := "p-weird", action := "*", effect := "frobnicate" }

/-- A two-policy store: one policy applicable to `payment.transfer`, one
not. -/
def repoTwo : PolicyRepository :=
  ((PolicyRepository.mk []).addPolicy
      { id := "pol-a", action := "payment.*", effect := "allow" }).addPolicy
    { id := "pol-b", action := "db.read", effect := "deny" }

/-- The output of `evaluate_all` on `repoTwo` for subject `alice`, action
`payment.transfer`, no resource, no attrs. -/
def outTwo : EvalOutput :=
  { matchList :=
      [{ policy := "pol-a", level := "agent", priority := 50,
         effect := "allow", matched := true, result := "allow" },
       { policy := "pol-b", level := "agent", priority := 50,
         effect := "deny", matched := false, result := "not_applicable" }],
    final := { allow := true, effect := "allow",
               reason := "Allow by policy pol-a", matchedPolicy := "pol-a" } }

/-- A store with a single amount-capped policy, used to exhibit the
`TypeError` raised on a string-valued amount attribute. -/
def repoAmountCap : PolicyRepository :=
  (PolicyRepository.mk []).addPolicy
    { id := "cap", action := "payment.transfer", effect := "allow",
      amountMax := some 100 }

/-- Pointwise agreement of two dictionaries except possibly at the values
stored under one key `k`: same keys in the same positions, and identical
entries wherever the key differs from `k`. Used to show that when `attrs`
overrides one of the positional bindings, the positional argument has no
influence on the evaluation context. -/
inductive EqExceptAt (k : String) : Dict → Dict → Prop
  | nil : EqExceptAt k [] []
  | consSame (kv : String × Value) {d1 d2 : Dict} :
      EqExceptAt k d1 d2 → EqExceptAt k (kv :: d1) (kv :: d2)
  | consKey (v1 v2 : Value) {d1 d2 : Dict} :
      EqExceptAt k d1 d2 → EqExceptAt k ((k, v1) :: d1) ((k, v2) :: d2)

/-! ### Basic lemmas about the embedding -/

theorem keyLe_refl (a : MatchResult) : KeyLe a a := by
  unfold KeyLe
  omega

/-- In a list sorted by `KeyLe`, the result of `find?` is `KeyLe`-below
every element of the list satisfying the predicate. -/
theorem find?_min_of_pairwise {p : MatchResult → Bool} :
    ∀ {l : List MatchResult} {a : MatchResult},
      List.Pairwise KeyLe l → l.find? p = some a →
      ∀ b ∈ l, p b = true → KeyLe a b := by
  intro l
  induction l with
  | nil => intro a _ hf; simp [List.find?] at hf
  | cons x xs ih =>
    intro a hpw hf b hb hpb
    rcases List.pairwise_cons.mp hpw with ⟨hx, hxs⟩
    by_cases hpx : p x = true
    · rw [List.find?_cons_of_pos _ hpx] at hf
      cases hf
      rcases List.mem_cons.mp hb with rfl | hbxs
      · exact keyLe_refl b
      · exact hx b hbxs
    · rw [List.find?_cons_of_neg _ (by simpa using hpx)] at hf
      rcases List.mem_cons.mp hb with rfl | hbxs
      · exact absurd hpb hpx
      · exact ih hxs hf b hbxs hpb

theorem mem_sortedApplicable {m : MatchResult} {ms : List MatchResult} :
    m ∈ sortedApplicable ms ↔ m ∈ ms ∧ m.matched = true := by
  unfold sortedApplicable applicableOf
  rw [(List.perm_insertionSort KeyLe _).mem_iff, List.mem_filter]

theorem pairwise_sortedApplicable (ms : List MatchResult) :
    List.Pairwise KeyLe (sortedApplicable ms) :=
  List.sorted_insertionSort KeyLe (applicableOf ms)

theorem applicableOf_ne_nil {m : MatchResult} {ms : List MatchResult}
    (hm : m ∈ ms) (hmt : m.matched = true) :
    (applicableOf ms).isEmpty = false := by
  rcases h : (applicableOf ms).isEmpty with _ | _
  · rfl
  · exfalso
    have : m ∈ applicableOf ms := List.mem_filter.mpr ⟨hm, hmt⟩
    rw [List.isEmpty_iff.mp h] at this
    simp at this

theorem evalPolicies_ok_inv :
    ∀ {ps : List Policy} {ctx : Dict} {rs : List MatchResult},
      evalPolicies ps ctx = .ok rs →
      rs = ps.map (fun p =>
        mkMatchResult p (match matchesP p ctx with | .ok b => b | .error _ => false)) ∧
      ∀ p ∈ ps, ∃ b, matchesP p ctx = .ok b := by
  intro ps
  induction ps with
  | nil =>
    intro ctx rs h
    simp [evalPolicies] at h
    simp [← h]
  | cons p ps ih =>
    intro ctx rs h
    unfold evalPolicies at h
    rcases h1 : matchesP p ctx with e | b <;> rw [h1] at h
    · cases h
    · rcases h2 : evalPolicies ps ctx with e | rest <;> rw [h2] at h
      · cases h
      · cases h
        rcases ih h2 with ⟨hmap, hall⟩
        constructor
        · simp [List.map_cons, ← hmap, h1]
        · intro q hq
          rcases List.mem_cons.mp hq with rfl | hq2
          · exact ⟨b, h1⟩
          · exact hall q hq2

theorem evaluateAll_ok_inv {repo : PolicyRepository} {s a : String}
    {r : Option String} {attrs : Dict} {out : EvalOutput}
    (h : evaluateAll repo s a r attrs = .ok out) :
    evalPolicies repo.list (buildContext s a r attrs) = .ok out.matchList ∧
    out.final = computeFinalDecision out.matchList := by
  unfold evaluateAll at h
  rcases h1 : evalPolicies repo.list (buildContext s a r attrs) with e | rs <;>
    rw [h1] at h
  · cases h
  · cases h
    exact ⟨rfl, rfl⟩

theorem evaluate_eq_final {repo : PolicyRepository} {s a : String}
    {r : Option String} {attrs : Dict} {out : EvalOutput}
    (h : evaluateAll repo s a r attrs = .ok out) :
    evaluate repo s a r attrs = .ok out.final := by
  unfold evaluate
  rw [h]

/-! ### The claims -/

/-- C1: whenever the matched results contain at least one deny outcome, the
final decision is deny with `allow = false`, whatever the level and
priority of any other matched result; this holds for
`computeFinalDecision` and lifts through `evaluate`. -/
theorem spec_C1 :
    (∀ ms : List MatchResult,
      (∃ m ∈ ms, m.matched = true ∧ m.result = "deny") →
      (computeFinalDecision ms).allow = false ∧
      (computeFinalDecision ms).effect = "deny") ∧
    (∀ (repo : PolicyRepository) (s a : String) (r : Option String)
        (attrs : Dict) (out : EvalOutput),
      evaluateAll repo s a r attrs = .ok out →
      (∃ m ∈ out.matchList, m.matched = true ∧ m.result = "deny") →
      ∃ d, evaluate repo s a r attrs = .ok d ∧
        d.allow = false ∧ d.effect = "deny") := by
  have core : ∀ ms : List MatchResult,
      (∃ m ∈ ms, m.matched = true ∧ m.result = "deny") →
      (computeFinalDecision ms).allow = false ∧
      (computeFinalDecision ms).effect = "deny" := by
    intro ms ⟨m, hm, hmt, hres⟩
    unfold computeFinalDecision
    rw [applicableOf_ne_nil hm hmt]
    simp only [Bool.false_eq_true, if_false]
    unfold scanDecision
    rcases hden : (sortedApplicable ms).find? (fun m => m.result == "deny")
      with _ | m2
    · exfalso
      have := List.find?_eq_none.mp hden m (mem_sortedApplicable.mpr ⟨hm, hmt⟩)
      simp [hres] at this
    · rw [hden]
      exact ⟨rfl, rfl⟩
  refine ⟨core, ?_⟩
  intro repo s a r attrs out h hex
  exact ⟨out.final, evaluate_eq_final h, by
    rw [(evaluateAll_ok_inv h).2]
    exact core out.matchList hex⟩

/-- C1 witness: a single matched deny result forces a deny decision. -/
theorem spec_C1_witness :
    (computeFinalDecision
      [{ policy := "p1", level := "agent", priority := 50, effect := "deny",
         matched := true, result := "deny" }]).allow = false ∧
    (computeFinalDecision
      [{ policy := "p1", level := "agent", priority := 50, effect := "deny",
         matched := true, result := "deny" }]).effect = "deny" :=
  spec_C1.1 _ ⟨_, List.mem_singleton.mpr rfl, rfl, rfl⟩

/-- C2: a request matching zero policies yields exactly the default-deny
decision with reason "No matching policies" and sentinel policy id
"default-deny". -/
theorem spec_C2 (repo : PolicyRepository) (s a : String) (r : Option String)
    (attrs : Dict) (out : EvalOutput)
    (h : evaluateAll repo s a r attrs = .ok out)
    (hz : ∀ m ∈ out.matchList, m.matched = false) :
    evaluate repo s a r attrs = .ok
      { allow := false, effect := "deny", reason := "No matching policies",
        matchedPolicy := "default-deny" } := by
  rw [evaluate_eq_final h, (evaluateAll_ok_inv h).2]
  unfold computeFinalDecision
  have : applicableOf out.matchList = [] := by
    unfold applicableOf
    rw [List.filter_eq_nil_iff]
    intro m hm
    simp [hz m hm]
  rw [this]
  rfl

/-- C2 witness: on an empty store nothing matches, so `evaluate` returns
the default deny. -/
theorem spec_C2_witness :
    evaluate (PolicyRepository.mk []) "alice" "payment.transfer" none [] =
      .ok { allow := false, effect := "deny",
            reason := "No matching policies",
            matchedPolicy := "default-deny" } :=
  spec_C2 _ _ _ _ _ _ rfl (by intro m hm; simp [evaluateAll, evalPolicies,
    PolicyRepository.list] at hm)

/-- C3 and C4 both inspect the entry returned by one of the three
precedence scans: it is a matched result of the scanned effect class, and
it is `KeyLe`-minimal among the matched results of that class. -/
theorem found_min {ms : List MatchResult} {m : MatchResult} {e : String}
    (hf : (sortedApplicable ms).find? (fun x => x.result == e) = some m) :
    m ∈ ms ∧ m.matched = true ∧ m.result = e ∧
    ∀ m2 ∈ ms, m2.matched = true → m2.result = e → KeyLe m m2 := by
  have hmem := List.mem_of_find?_eq_some hf
  have hres : m.result = e := by simpa using List.find?_some hf
  rcases mem_sortedApplicable.mp hmem with ⟨hin, hmt⟩
  refine ⟨hin, hmt, hres, ?_⟩
  intro m2 h2 h2t h2r
  exact find?_min_of_pairwise (pairwise_sortedApplicable ms) hf m2
    (mem_sortedApplicable.mpr ⟨h2, h2t⟩) (by simp [h2r])

theorem compute_eq_scan {ms : List MatchResult}
    (hne : (applicableOf ms).isEmpty = false) :
    computeFinalDecision ms = scanDecision (sortedApplicable ms) := by
  unfold computeFinalDecision
  rw [hne]
  simp

/-- C3: a level rank of 1/2/3/4 for enterprise/domain/agent/runtime (3 for
anything unrecognized), and whenever some matched result has the winning
effect, the selected `matched_policy` comes from a matched result of that
effect class that is lexicographically minimal in `(level rank, priority)`
among the matched results of that class. -/
theorem spec_C3 :
    (levelOrder "enterprise" = 1 ∧ levelOrder "domain" = 2 ∧
     levelOrder "agent" = 3 ∧ levelOrder "runtime" = 4 ∧
     ∀ l : String, l ≠ "enterprise" → l ≠ "domain" → l ≠ "agent" →
       l ≠ "runtime" → levelOrder l = 3) ∧
    (∀ (ms : List MatchResult) (m0 : MatchResult), m0 ∈ ms →
      m0.matched = true → m0.result = (computeFinalDecision ms).effect →
      ∃ m ∈ ms, m.matched = true ∧
        m.result = (computeFinalDecision ms).effect ∧
        m.policy = (computeFinalDecision ms).matchedPolicy ∧
        ∀ m2 ∈ ms, m2.matched = true →
          m2.result = (computeFinalDecision ms).effect → KeyLe m m2) := by
  constructor
  · refine ⟨rfl, rfl, rfl, rfl, ?_⟩
    intro l h1 h2 h3 h4
    simp [levelOrder, h1, h2, h3, h4]
  · intro ms m0 hm0 hmt0 hres0
    have hne := applicableOf_ne_nil hm0 hmt0
    have hd := compute_eq_scan hne
    rw [hd] at hres0 ⊢
    unfold scanDecision at hres0 ⊢
    rcases hden : (sortedApplicable ms).find? (fun x => x.result == "deny")
      with _ | m <;> rw [hden] at hres0 ⊢
    · rcases hra : (sortedApplicable ms).find?
          (fun x => x.result == "require_approval") with _ | m <;>
        rw [hra] at hres0 ⊢
      · rcases hal : (sortedApplicable ms).find?
            (fun x => x.result == "allow") with _ | m <;> rw [hal] at hres0 ⊢
        · exfalso
          have := List.find?_eq_none.mp hden m0
            (mem_sortedApplicable.mpr ⟨hm0, hmt0⟩)
          simp only [FinalDecision.effect] at hres0
          simp [hres0] at this
        · obtain ⟨hin, hmt, hres, hmin⟩ := found_min hal
          exact ⟨m, hin, hmt, hres, rfl, hmin⟩
      · obtain ⟨hin, hmt, hres, hmin⟩ := found_min hra
        exact ⟨m, hin, hmt, hres, rfl, hmin⟩
    · obtain ⟨hin, hmt, hres, hmin⟩ := found_min hden
      exact ⟨m, hin, hmt, hres, rfl, hmin⟩

/-- C3 witness: with a domain-level and an agent-level allow both matched,
there is a matched allow entry carrying the selected policy id that is
minimal in the key order. -/
theorem spec_C3_witness :
    ∃ m ∈ msPair, m.matched = true ∧
      m.result = (computeFinalDecision msPair).effect ∧
      m.policy = (computeFinalDecision msPair).matchedPolicy ∧
      ∀ m2 ∈ msPair, m2.matched = true →
        m2.result = (computeFinalDecision msPair).effect → KeyLe m m2 :=
  spec_C3.2 msPair
    { policy := "ag", level := "agent", priority := 10,
      effect := "allow", matched := true, result := "allow" }
    (List.mem_cons_self _ _) rfl rfl

/-- C4: a matched policy with an unrecognised effect string gets outcome
"unknown"; the selected `matched_policy` always comes from a matched result
with a recognised outcome (or is the "default-deny" sentinel); and when
every matched result has outcome "unknown", the decision has the
default-deny shape: `allow = false`, effect "deny", matched policy
"default-deny". -/
theorem spec_C4 :
    (∀ p : Policy, p.effect ≠ "allow" → p.effect ≠ "deny" →
      p.effect ≠ "require_approval" →
      resultForSinglePolicy p true = "unknown") ∧
    (∀ ms : List MatchResult,
      (computeFinalDecision ms).matchedPolicy = "default-deny" ∨
      ∃ m ∈ ms, m.matched = true ∧
        (m.result = "deny" ∨ m.result = "require_approval" ∨
          m.result = "allow") ∧
        m.policy = (computeFinalDecision ms).matchedPolicy) ∧
    (∀ ms : List MatchResult,
      (∀ m ∈ ms, m.matched = true → m.result = "unknown") →
      (computeFinalDecision ms).allow = false ∧
      (computeFinalDecision ms).effect = "deny" ∧
      (computeFinalDecision ms).matchedPolicy = "default-deny") := by
  refine ⟨?_, ?_, ?_⟩
  · intro p h1 h2 h3
    simp [resultForSinglePolicy, h1, h2, h3]
  · intro ms
    rcases hne : (applicableOf ms).isEmpty with _ | _
    · rw [compute_eq_scan hne]
      unfold scanDecision
      rcases hden : (sortedApplicable ms).find? (fun x => x.result == "deny")
        with _ | m <;> rw [hden]
      · rcases hra : (sortedApplicable ms).find?
            (fun x => x.result == "require_approval") with _ | m <;> rw [hra]
        · rcases hal : (sortedApplicable ms).find?
              (fun x => x.result == "allow") with _ | m <;> rw [hal]
          · exact Or.inl rfl
          · obtain ⟨hin, hmt, hres, _⟩ := found_min hal
            exact Or.inr ⟨m, hin, hmt, Or.inr (Or.inr hres), rfl⟩
        · obtain ⟨hin, hmt, hres, _⟩ := found_min hra
          exact Or.inr ⟨m, hin, hmt, Or.inr (Or.inl hres), rfl⟩
      · obtain ⟨hin, hmt, hres, _⟩ := found_min hden
        exact Or.inr ⟨m, hin, hmt, Or.inl hres, rfl⟩
    · left
      unfold computeFinalDecision
      rw [hne]
      rfl
  · intro ms hall
    have hnone : ∀ e : String, e ≠ "unknown" →
        (sortedApplicable ms).find? (fun x => x.result == e) = none := by
      intro e he
      rw [List.find?_eq_none]
      intro x hx
      rcases mem_sortedApplicable.mp hx with ⟨hin, hmt⟩
      simp [hall x hin hmt, (Ne.symm he)]
    rcases hne : (applicableOf ms).isEmpty with _ | _
    · rw [compute_eq_scan hne]
      unfold scanDecision
      rw [hnone "deny" (by decide), hnone "require_approval" (by decide),
        hnone "allow" (by decide)]
      exact ⟨rfl, rfl, rfl⟩
    · unfold computeFinalDecision
      rw [hne]
      exact ⟨rfl, rfl, rfl⟩

/-- C4 witness: the unrecognised effect "frobnicate" yields outcome
"unknown", and a trace whose only matched entry is "unknown" yields the
default-deny shape. -/
theorem spec_C4_witness :
    resultForSinglePolicy pUnknownEffect true = "unknown" ∧
    (computeFinalDecision msUnknown).effect = "deny" ∧
    (computeFinalDecision msUnknown).matchedPolicy = "default-deny" :=
  ⟨spec_C4.1 pUnknownEffect (by decide) (by decide) (by decide),
   (spec_C4.2.2 msUnknown
     (by intro m hm _; rw [List.mem_singleton.mp hm])).2.1,
   (spec_C4.2.2 msUnknown
     (by intro m hm _; rw [List.mem_singleton.mp hm])).2.2⟩

/-- Inversion for a successful match: when `matchesP` returns `.ok true`,
each amount constraint present on the policy had its failure test come back
`.ok false`. -/
theorem matchesP_ok_true_inv {p : Policy} {ctx : Dict}
    (h : matchesP p ctx = .ok true) :
    (∀ b, p.amountMax = some b →
      amountGtBound (dictLookup ctx "amount") b = .ok false) ∧
    (∀ b, p.amountMin = some b →
      amountLtBound (dictLookup ctx "amount") b = .ok false) := by
  unfold matchesP at h
  split at h
  · simp at h
  · simp at h
  · split at h
    · simp at h
    · simp at h
    · split at h
      · simp at h
      · simp at h
      · split at h
        · rename_i b hbmax
          split at h
          · simp at h
          · simp at h
          · rename_i hgt
            split at h
            · rename_i b2 hbmin
              split at h
              · simp at h
              · simp at h
              · rename_i hlt
                constructor
                · intro b3 hb3
                  rw [hbmax] at hb3
                  cases hb3
                  exact hgt
                · intro b3 hb3
                  rw [hbmin] at hb3
                  cases hb3
                  exact hlt
            · rename_i hbmin
              constructor
              · intro b3 hb3
                rw [hbmax] at hb3
                cases hb3
                exact hgt
              · intro b3 hb3
                rw [hbmin] at hb3
                cases hb3
        · rename_i hbmax
          split at h
          · rename_i b2 hbmin
            split at h
            · simp at h
            · simp at h
            · rename_i hlt
              constructor
              · intro b3 hb3
                rw [hbmax] at hb3
                cases hb3
              · intro b3 hb3
                rw [hbmin] at hb3
                cases hb3
                exact hlt
          · rename_i hbmin
            constructor
            · intro b3 hb3
              rw [hbmax] at hb3
              cases hb3
            · intro b3 hb3
              rw [hbmin] at hb3
              cases hb3

/-- C5: with an `amount_max` bound, a policy can only match when the
numeric amount is at most the bound, and never matches when the amount is
absent; with an `amount_min` bound it can only match when the amount is at
least the bound, an absent amount counting as 0; concretely, amount 999
meets `amount_max = 999` but 1000 does not, and amount 10000 meets
`amount_min = 10000` but 9999 does not. -/
theorem spec_C5 :
    (∀ (p : Policy) (ctx : Dict) (b n : Int), p.amountMax = some b →
      dictLookup ctx "amount" = some (.num n) →
      matchesP p ctx = .ok true → n ≤ b) ∧
    (∀ (p : Policy) (ctx : Dict) (b : Int), p.amountMax = some b →
      dictLookup ctx "amount" = none → matchesP p ctx ≠ .ok true) ∧
    (∀ (p : Policy) (ctx : Dict) (b n : Int), p.amountMin = some b →
      dictLookup ctx "amount" = some (.num n) →
      matchesP p ctx = .ok true → b ≤ n) ∧
    (∀ (p : Policy) (ctx : Dict) (b : Int), p.amountMin = some b →
      dictLookup ctx "amount" = none → matchesP p ctx = .ok true → b ≤ 0) ∧
    matchesP pAmountMax999 (ctxAmount 999) = .ok true ∧
    matchesP pAmountMax999 (ctxAmount 1000) = .ok false ∧
    matchesP pAmountMin10000 (ctxAmount 10000) = .ok true ∧
    matchesP pAmountMin10000 (ctxAmount 9999) = .ok false := by
  refine ⟨?_, ?_, ?_, ?_, rfl, rfl, rfl, rfl⟩
  · intro p ctx b n hb hl h
    have := (matchesP_ok_true_inv h).1 b hb
    rw [hl] at this
    unfold amountGtBound at this
    simp at this
    omega
  · intro p ctx b hb hl h
    have := (matchesP_ok_true_inv h).1 b hb
    rw [hl] at this
    simp [amountGtBound] at this
  · intro p ctx b n hb hl h
    have := (matchesP_ok_true_inv h).2 b hb
    rw [hl] at this
    unfold amountLtBound at this
    simp at this
    omega
  · intro p ctx b hb hl h
    have := (matchesP_ok_true_inv h).2 b hb
    rw [hl] at this
    unfold amountLtBound at this
    simp at this
    omega

/-- C5 witness: the general amount-bound facts instantiated on the
concrete cap/floor policies and contexts. -/
theorem spec_C5_witness :
    pAmountMax999.amountMax = some 999 ∧
    dictLookup (ctxAmount 999) "amount" = some (.num 999) ∧
    matchesP pAmountMax999 (ctxAmount 999) = .ok true ∧
    (999 : Int) ≤ 999 ∧ (10000 : Int) ≤ 10000 :=
  ⟨rfl, rfl, rfl,
   spec_C5.1 pAmountMax999 (ctxAmount 999) 999 999 rfl rfl rfl,
   spec_C5.2.2.1 pAmountMin10000 (ctxAmount 10000) 10000 10000 rfl rfl rfl⟩

/-- C6: `matchesPattern p v` holds exactly when `p` is the universal
pattern `"*"`, or `p` equals `v`, or `p` ends in `"*"` and `v` starts with
the prefix of `p` before the trailing star; there is no case folding and no
other wildcard form. -/
theorem spec_C6 :
    (∀ pattern value : String,
      matchesPattern pattern value = true ↔
        (pattern = "*" ∨ pattern = value ∨
          (strEndsWith pattern "*" = true ∧
            strStartsWith value (strDropLast pattern) = true))) ∧
    matchesPattern "payment-*" "payment-agent-1" = true ∧
    matchesPattern "payment-*" "finance-agent-1" = false ∧
    matchesPattern "*" "anything-at-all" = true ∧
    matchesPattern "finance-agent-1" "finance-agent-1" = true := by
  refine ⟨?_, rfl, rfl, rfl, rfl⟩
  intro pattern value
  unfold matchesPattern
  by_cases h1 : pattern = "*"
  · simp [h1]
  · by_cases h2 : pattern = value
    · simp [h1, h2]
    · by_cases h3 : strEndsWith pattern "*" = true
      · simp [h1, h2, h3]
      · simp [h1, h2, h3]

/-- C7: a successful `evaluate_all` produces exactly one trace entry per
stored policy, in store order — the trace length equals the store's
`size()`, the per-entry policy ids are the stored ids, and entries for
non-matching policies carry the outcome "not_applicable". -/
theorem spec_C7 (repo : PolicyRepository) (s a : String)
    (r : Option String) (attrs : Dict) (out : EvalOutput)
    (h : evaluateAll repo s a r attrs = .ok out) :
    out.matchList.length = repo.size ∧
    out.matchList.map (fun m => m.policy) =
      repo.list.map (fun p => p.id) ∧
    ∀ m ∈ out.matchList, m.matched = false → m.result = "not_applicable" := by
  obtain ⟨hE, _⟩ := evaluateAll_ok_inv h
  obtain ⟨hmap, _⟩ := evalPolicies_ok_inv hE
  refine ⟨?_, ?_, ?_⟩
  · rw [hmap, List.length_map]
    unfold PolicyRepository.list PolicyRepository.size
    rw [List.length_map]
  · rw [hmap, List.map_map]
    rfl
  · intro m hm hfalse
    rw [hmap] at hm
    rcases List.mem_map.mp hm with ⟨p, _, hp⟩
    rcases hb : (match matchesP p (buildContext s a r attrs) with
        | .ok b => b | .error _ => false) with _ | _
    · rw [← hp]
      unfold mkMatchResult
      rw [hb]
      rfl
    · exfalso
      rw [← hp] at hfalse
      unfold mkMatchResult at hfalse
      rw [hb] at hfalse
      simp at hfalse

/-- C7 witness: on a two-policy store one entry is produced per policy, in
order, with the non-matching one marked "not_applicable". -/
theorem spec_C7_witness :
    outTwo.matchList.length = repoTwo.size ∧
    outTwo.matchList.map (fun m => m.policy) =
      repoTwo.list.map (fun p => p.id) ∧
    ∀ m ∈ outTwo.matchList, m.matched = false →
      m.result = "not_applicable" :=
  spec_C7 repoTwo "alice" "payment.transfer" none [] outTwo (by rfl)

/-! ### Lemmas on the context dictionary -/

theorem dictLookup_mapReplace_self :
    ∀ (d : Dict) (k : String) (v : Value),
      d.any (fun kv => kv.1 == k) = true →
      dictLookup (d.map (fun kv => if kv.1 == k then (k, v) else kv)) k =
        some v := by
  intro d k v h
  induction d with
  | nil => simp at h
  | cons kv rest ih =>
    rcases hk : (kv.1 == k) with _ | _
    · rw [List.any_cons, hk, Bool.false_or] at h
      rw [List.map_cons]
      unfold dictLookup
      simp only [hk, Bool.false_eq_true, if_false]
      exact ih h
    · rw [List.map_cons]
      unfold dictLookup
      simp [hk]

theorem dictLookup_append_last :
    ∀ (d : Dict) (k : String) (v : Value),
      d.any (fun kv => kv.1 == k) = false →
      dictLookup (d ++ [(k, v)]) k = some v := by
  intro d k v h
  induction d with
  | nil => simp [dictLookup]
  | cons kv rest ih =>
    rw [List.any_cons] at h
    rcases Bool.or_eq_false_iff.mp h with ⟨h1, h2⟩
    rw [List.cons_append]
    unfold dictLookup
    rw [h1]
    simp only [Bool.false_eq_true, if_false]
    exact ih h2

theorem dictLookup_dictInsert_self (d : Dict) (k : String) (v : Value) :
    dictLookup (dictInsert d k v) k = some v := by
  unfold dictInsert
  rcases h : d.any (fun kv => kv.1 == k) with _ | _
  · simp only [Bool.false_eq_true, if_false]
    exact dictLookup_append_last d k v h
  · simp only [if_true]
    exact dictLookup_mapReplace_self d k v h

theorem dictLookup_mapReplace_ne :
    ∀ (d : Dict) (k k2 : String) (v : Value), k2 ≠ k →
      dictLookup (d.map (fun kv => if kv.1 == k then (k, v) else kv)) k2 =
        dictLookup d k2 := by
  intro d k k2 v hne
  induction d with
  | nil => rfl
  | cons kv rest ih =>
    rw [List.map_cons]
    rcases hk : (kv.1 == k) with _ | _
    · unfold dictLookup
      simp only [hk, Bool.false_eq_true, if_false]
      rcases hk2 : (kv.1 == k2) with _ | _ <;>
        simp only [hk2, Bool.false_eq_true, if_false, if_true]
      exact ih
    · have hkeq : kv.1 = k := by simpa using hk
      have hx : (k == k2) = false := by
        simp [Ne.symm hne]
      have hy : (kv.1 == k2) = false := by
        rw [hkeq]
        exact hx
      unfold dictLookup
      simp only [hk, if_true, hx, hy, Bool.false_eq_true, if_false]
      exact ih

theorem dictLookup_append_ne :
    ∀ (d : Dict) (k k2 : String) (v : Value), k2 ≠ k →
      dictLookup (d ++ [(k, v)]) k2 = dictLookup d k2 := by
  intro d k k2 v hne
  induction d with
  | nil => simp [dictLookup, Ne.symm hne]
  | cons kv rest ih =>
    rw [List.cons_append]
    unfold dictLookup
    rcases hk2 : (kv.1 == k2) with _ | _ <;>
      simp only [hk2, Bool.false_eq_true, if_false, if_true]
    exact ih

theorem dictLookup_dictInsert_ne (d : Dict) (k k2 : String) (v : Value)
    (hne : k2 ≠ k) :
    dictLookup (dictInsert d k v) k2 = dictLookup d k2 := by
  unfold dictInsert
  rcases h : d.any (fun kv => kv.1 == k) with _ | _
  · simp only [Bool.false_eq_true, if_false]
    exact dictLookup_append_ne d k k2 v hne
  · simp only [if_true]
    exact dictLookup_mapReplace_ne d k k2 v hne

theorem attrsOverride_cons (kv : String × Value) (rest : Dict) (k : String) :
    attrsOverride (kv :: rest) k =
      match attrsOverride rest k with
      | some v => some v
      | none => if kv.1 == k then some kv.2 else none := rfl

theorem dictLookup_foldl_insert_none (attrs : Dict) :
    ∀ (d : Dict) (k : String), attrsOverride attrs k = none →
      dictLookup (attrs.foldl (fun acc kv => dictInsert acc kv.1 kv.2) d) k =
        dictLookup d k := by
  induction attrs with
  | nil => intro d k _; rfl
  | cons kv rest ih =>
    intro d k h
    rw [attrsOverride_cons] at h
    rcases h2 : attrsOverride rest k with _ | v2 <;> rw [h2] at h
    · have h3 : (if kv.1 == k then some kv.2 else none) = none := h
      rcases hk : (kv.1 == k) with _ | _ <;> rw [hk] at h3
      · rw [List.foldl_cons, ih _ k h2]
        exact dictLookup_dictInsert_ne d kv.1 k kv.2
          (by intro heq; rw [heq] at hk; simp at hk)
      · simp at h3
    · have h3 : (some v2 : Option Value) = none := h
      simp at h3

theorem dictLookup_foldl_insert_some (attrs : Dict) :
    ∀ (d : Dict) (k : String) (v : Value), attrsOverride attrs k = some v →
      dictLookup (attrs.foldl (fun acc kv => dictInsert acc kv.1 kv.2) d) k =
        some v := by
  induction attrs with
  | nil => intro d k v h; simp [attrsOverride] at h
  | cons kv rest ih =>
    intro d k v h
    rw [attrsOverride_cons] at h
    rcases h2 : attrsOverride rest k with _ | v2 <;> rw [h2] at h
    · have h3 : (if kv.1 == k then some kv.2 else none) = some v := h
      rcases hk : (kv.1 == k) with _ | _ <;> rw [hk] at h3
      · simp at h3
      · have hkeq : kv.1 = k := by simpa using hk
        have hv : kv.2 = v := by simpa using h3
        rw [List.foldl_cons, dictLookup_foldl_insert_none rest _ k h2, ← hkeq,
          ← hv]
        exact dictLookup_dictInsert_self d kv.1 kv.2
    · have h3 : (some v2 : Option Value) = some v := h
      have hv : v2 = v := by simpa using h3
      rw [List.foldl_cons, ih _ k v2 h2, hv]

theorem attrsOverride_mem :
    ∀ {attrs : Dict} {k : String} {v : Value},
      attrsOverride attrs k = some v → (k, v) ∈ attrs := by
  intro attrs
  induction attrs with
  | nil => intro k v h; simp [attrsOverride] at h
  | cons kv rest ih =>
    intro k v h
    rw [attrsOverride_cons] at h
    rcases h2 : attrsOverride rest k with _ | v2 <;> rw [h2] at h
    · have h3 : (if kv.1 == k then some kv.2 else none) = some v := h
      rcases hk : (kv.1 == k) with _ | _ <;> rw [hk] at h3
      · simp at h3
      · have hkeq : kv.1 = k := by simpa using hk
        have hv : kv.2 = v := by simpa using h3
        have hkv : kv = (k, v) := by
          rw [← hkeq, ← hv]
        rw [← hkv]
        exact List.mem_cons_self _ _
    · have h3 : (some v2 : Option Value) = some v := h
      have hv : v2 = v := by simpa using h3
      subst hv
      exact List.mem_cons_of_mem _ (ih h2)

theorem attrsOverride_any {attrs : Dict} {k : String} {v : Value}
    (h : attrsOverride attrs k = some v) :
    attrs.any (fun kv => kv.1 == k) = true :=
  List.any_eq_true.mpr ⟨(k, v), attrsOverride_mem h, by simp⟩

theorem dictLookup_buildContext_some {s a : String} {r : Option String}
    {attrs : Dict} {k : String} {v : Value}
    (h : attrsOverride attrs k = some v) :
    dictLookup (buildContext s a r attrs) k = some v :=
  dictLookup_foldl_insert_some attrs _ k v h

theorem dictLookup_buildContext_none {s a : String} {r : Option String}
    {attrs : Dict} {k : String} (h : attrsOverride attrs k = none) :
    dictLookup (buildContext s a r attrs) k =
      dictLookup (baseContext s a r) k :=
  dictLookup_foldl_insert_none attrs _ k h

/-! ### Totality of the match loop on well-typed contexts -/

theorem amountGtBound_total (o : Option Value) (b : Int)
    (h : ∀ v, o = some v → (∃ n, v = .num n) ∨ (∃ b2, v = .bool b2)) :
    ∃ res, amountGtBound o b = .ok res := by
  rcases o with _ | v
  · exact ⟨true, rfl⟩
  · rcases h v rfl with ⟨n, rfl⟩ | ⟨b2, rfl⟩
    · exact ⟨_, rfl⟩
    · exact ⟨_, rfl⟩

theorem amountLtBound_total (o : Option Value) (b : Int)
    (h : ∀ v, o = some v → (∃ n, v = .num n) ∨ (∃ b2, v = .bool b2)) :
    ∃ res, amountLtBound o b = .ok res := by
  rcases o with _ | v
  · exact ⟨_, rfl⟩
  · rcases h v rfl with ⟨n, rfl⟩ | ⟨b2, rfl⟩
    · exact ⟨_, rfl⟩
    · exact ⟨_, rfl⟩

theorem matchesP_total (p : Policy) (ctx : Dict)
    (hact : ∃ s2, dictGetD ctx "action" (.str "") = .str s2)
    (hsub : ∃ s2, dictGetD ctx "subject" (.str "") = .str s2)
    (hres : ∃ s2, dictGetD ctx "resource" (.str "*") = .str s2)
    (hamt : ∀ v, dictLookup ctx "amount" = some v →
      (∃ n, v = .num n) ∨ (∃ b2, v = .bool b2)) :
    ∃ b, matchesP p ctx = .ok b := by
  obtain ⟨sa, ha⟩ := hact
  obtain ⟨ss, hs⟩ := hsub
  obtain ⟨sr, hr⟩ := hres
  unfold matchesP
  rw [ha, hs, hr]
  simp only [matchesPatternVal]
  rcases hma : matchesPattern p.action sa with _ | _
  · exact ⟨false, rfl⟩
  rcases hms : matchesPattern p.subject ss with _ | _
  · exact ⟨false, rfl⟩
  rcases hmr : matchesPattern p.resource sr with _ | _
  · exact ⟨false, rfl⟩
  rcases ho : dictLookup ctx "amount" with _ | v
  · rcases hmax : p.amountMax with _ | b0
    · rcases hmin : p.amountMin with _ | b1
      · exact ⟨true, rfl⟩
      · simp only [amountLtBound]
        rcases hd : decide ((0 : Int) < b1) with _ | _
        · exact ⟨true, rfl⟩
        · exact ⟨false, rfl⟩
    · exact ⟨false, rfl⟩
  · rcases hamt v ho with ⟨n, rfl⟩ | ⟨bb, rfl⟩
    · rcases hmax : p.amountMax with _ | b0
      · rcases hmin : p.amountMin with _ | b1
        · exact ⟨true, rfl⟩
        · simp only [amountLtBound]
          rcases hd : decide (n < b1) with _ | _
          · exact ⟨true, rfl⟩
          · exact ⟨false, rfl⟩
      · simp only [amountGtBound]
        rcases hd : decide (b0 < n) with _ | _
        · rcases hmin : p.amountMin with _ | b1
          · exact ⟨true, rfl⟩
          · simp only [amountLtBound]
            rcases hd2 : decide (n < b1) with _ | _
            · exact ⟨true, rfl⟩
            · exact ⟨false, rfl⟩
        · exact ⟨false, rfl⟩
    · rcases hmax : p.amountMax with _ | b0
      · rcases hmin : p.amountMin with _ | b1
        · exact ⟨true, rfl⟩
        · simp only [amountLtBound]
          rcases hd : decide ((if bb then (1 : Int) else 0) < b1) with _ | _
          · exact ⟨true, rfl⟩
          · exact ⟨false, rfl⟩
      · simp only [amountGtBound]
        rcases hd : decide (b0 < (if bb then (1 : Int) else 0)) with _ | _
        · rcases hmin : p.amountMin with _ | b1
          · exact ⟨true, rfl⟩
          · simp only [amountLtBound]
            rcases hd2 : decide ((if bb then (1 : Int) else 0) < b1) with _ | _
            · exact ⟨true, rfl⟩
            · exact ⟨false, rfl⟩
        · exact ⟨false, rfl⟩

theorem evalPolicies_total (ps : List Policy) (ctx : Dict)
    (h : ∀ p, ∃ b, matchesP p ctx = .ok b) :
    ∃ rs, evalPolicies ps ctx = .ok rs := by
  induction ps with
  | nil => exact ⟨[], rfl⟩
  | cons p ps ih =>
    obtain ⟨b, hb⟩ := h p
    obtain ⟨rs, hrs⟩ := ih
    exact ⟨mkMatchResult p b :: rs, by unfold evalPolicies; rw [hb, hrs]⟩

/-- C8 counterexample: with an `amount_max` policy in the store, a request
whose attrs carry a string-valued `amount` makes both `evaluate_all` and
`evaluate` raise a `TypeError` (the string is compared against the numeric
bound), so the engine does not tolerate arbitrary malformed attrs. -/
theorem spec_C8_counterexample :
    evaluateAll repoAmountCap "alice" "payment.transfer" none
      [("amount", .str "lots")] = .error .typeError ∧
    evaluate repoAmountCap "alice" "payment.transfer" none
      [("amount", .str "lots")] = .error .typeError :=
  ⟨rfl, rfl⟩

/-- C8 (amended): `evaluate` and `evaluate_all` never raise provided the
attrs values are well-typed where the engine reads them — string values
under the keys `subject`, `action`, `resource` (when present) and a
numeric or boolean value under `amount` (when present); the positional
subject/action/resource and all other attrs are arbitrary. -/
theorem spec_C8_amended (repo : PolicyRepository) (s a : String)
    (r : Option String) (attrs : Dict)
    (hstr : ∀ k v, (k, v) ∈ attrs →
      (k = "subject" ∨ k = "action" ∨ k = "resource") → ∃ s2, v = .str s2)
    (hamt : ∀ v, ("amount", v) ∈ attrs →
      (∃ n, v = .num n) ∨ (∃ b2, v = .bool b2)) :
    (evaluateAll repo s a r attrs).isOk = true ∧
    (evaluate repo s a r attrs).isOk = true := by
  have hctxS : ∃ s2,
      dictGetD (buildContext s a r attrs) "subject" (.str "") = .str s2 := by
    rcases hov : attrsOverride attrs "subject" with _ | v
    · exact ⟨s, by unfold dictGetD; rw [dictLookup_buildContext_none hov]; rfl⟩
    · obtain ⟨s2, rfl⟩ :=
        hstr "subject" v (attrsOverride_mem hov) (Or.inl rfl)
      exact ⟨s2, by unfold dictGetD; rw [dictLookup_buildContext_some hov]; rfl⟩
  have hctxA : ∃ s2,
      dictGetD (buildContext s a r attrs) "action" (.str "") = .str s2 := by
    rcases hov : attrsOverride attrs "action" with _ | v
    · exact ⟨a, by unfold dictGetD; rw [dictLookup_buildContext_none hov]; rfl⟩
    · obtain ⟨s2, rfl⟩ :=
        hstr "action" v (attrsOverride_mem hov) (Or.inr (Or.inl rfl))
      exact ⟨s2, by unfold dictGetD; rw [dictLookup_buildContext_some hov]; rfl⟩
  have hctxR : ∃ s2,
      dictGetD (buildContext s a r attrs) "resource" (.str "*") = .str s2 := by
    rcases hov : attrsOverride attrs "resource" with _ | v
    · exact ⟨resourceOrStar r,
        by unfold dictGetD; rw [dictLookup_buildContext_none hov]; rfl⟩
    · obtain ⟨s2, rfl⟩ :=
        hstr "resource" v (attrsOverride_mem hov) (Or.inr (Or.inr rfl))
      exact ⟨s2, by unfold dictGetD; rw [dictLookup_buildContext_some hov]; rfl⟩
  have hctxM : ∀ v, dictLookup (buildContext s a r attrs) "amount" = some v →
      (∃ n, v = .num n) ∨ (∃ b2, v = .bool b2) := by
    intro v hv
    rcases hov : attrsOverride attrs "amount" with _ | v2
    · rw [dictLookup_buildContext_none hov] at hv
      have hbase : dictLookup (baseContext s a r) "amount" = none := rfl
      rw [hbase] at hv
      cases hv
    · rw [dictLookup_buildContext_some hov] at hv
      obtain rfl := Option.some.inj hv
      exact hamt v2 (attrsOverride_mem hov)
  obtain ⟨rs, hrs⟩ := evalPolicies_total repo.list (buildContext s a r attrs)
    (fun p => matchesP_total p _ hctxA hctxS hctxR hctxM)
  constructor
  · unfold evaluateAll
    rw [hrs]
    rfl
  · unfold evaluate evaluateAll
    rw [hrs]
    rfl

/-- C8 witness: with a numeric amount the amount-capped store evaluates
without an exception. -/
theorem spec_C8_witness :
    (evaluateAll repoAmountCap "alice" "payment.transfer" none
      [("amount", Value.num 50)]).isOk = true ∧
    (evaluate repoAmountCap "alice" "payment.transfer" none
      [("amount", Value.num 50)]).isOk = true :=
  spec_C8_amended repoAmountCap "alice" "payment.transfer" none
    [("amount", Value.num 50)]
    (by
      intro k v hm hk
      simp at hm
      rcases hm with ⟨rfl, rfl⟩
      rcases hk with h | h | h <;> simp at h)
    (by
      intro v hm
      simp at hm
      exact Or.inl ⟨50, hm⟩)

/-! ### Lemmas about value-only differences in the context -/

theorem EqExceptAt.anyKey {k : String} :
    ∀ {d1 d2 : Dict}, EqExceptAt k d1 d2 →
      ∀ k2 : String, d1.any (fun kv => kv.1 == k2) =
        d2.any (fun kv => kv.1 == k2) := by
  intro d1 d2 h
  induction h with
  | nil => intro k2; rfl
  | consSame kv h ih => intro k2; simp [List.any_cons, ih k2]
  | consKey v1 v2 h ih => intro k2; simp [List.any_cons, ih k2]

theorem EqExceptAt.eq_of_no_key {k : String} :
    ∀ {d1 d2 : Dict}, EqExceptAt k d1 d2 →
      d1.any (fun kv => kv.1 == k) = false → d1 = d2 := by
  intro d1 d2 h
  induction h with
  | nil => intro; rfl
  | consSame kv h ih =>
    intro hany
    rw [List.any_cons] at hany
    rcases Bool.or_eq_false_iff.mp hany with ⟨_, h2⟩
    rw [ih h2]
  | consKey v1 v2 h ih =>
    intro hany
    simp at hany

theorem EqExceptAt.mapReplaceEq {k : String} {v : Value} :
    ∀ {d1 d2 : Dict}, EqExceptAt k d1 d2 →
      d1.map (fun kv => if kv.1 == k then (k, v) else kv) =
        d2.map (fun kv => if kv.1 == k then (k, v) else kv) := by
  intro d1 d2 h
  induction h with
  | nil => rfl
  | consSame kv h ih =>
    simp only [List.map_cons]
    rw [ih]
  | consKey v1 v2 h ih =>
    simp only [List.map_cons]
    rw [ih]
    simp

theorem EqExceptAt.appendSame {k : String} (x : String × Value) :
    ∀ {d1 d2 : Dict}, EqExceptAt k d1 d2 →
      EqExceptAt k (d1 ++ [x]) (d2 ++ [x]) := by
  intro d1 d2 h
  induction h with
  | nil => exact .consSame x .nil
  | consSame kv h ih => exact .consSame kv ih
  | consKey v1 v2 h ih => exact .consKey v1 v2 ih

theorem EqExceptAt.mapPreserve {k k2 : String} {v : Value} (hne : k2 ≠ k) :
    ∀ {d1 d2 : Dict}, EqExceptAt k d1 d2 →
      EqExceptAt k (d1.map (fun kv => if kv.1 == k2 then (k2, v) else kv))
        (d2.map (fun kv => if kv.1 == k2 then (k2, v) else kv)) := by
  intro d1 d2 h
  have hkk : (k == k2) = false := by simp [Ne.symm hne]
  induction h with
  | nil => exact .nil
  | consSame kv h ih => exact .consSame _ ih
  | consKey v1 v2 h ih =>
    simp only [List.map_cons, hkk, Bool.false_eq_true, if_false]
    exact .consKey v1 v2 ih

theorem EqExceptAt.insert_same {k : String} {v : Value} {d1 d2 : Dict}
    (h : EqExceptAt k d1 d2) :
    dictInsert d1 k v = dictInsert d2 k v := by
  unfold dictInsert
  rw [h.anyKey k]
  rcases ha : d2.any (fun kv => kv.1 == k) with _ | _
  · simp only [Bool.false_eq_true, if_false]
    rw [h.eq_of_no_key ((h.anyKey k).trans ha)]
  · simp only [if_true]
    exact h.mapReplaceEq

theorem EqExceptAt.insert_ne {k k2 : String} {v : Value} {d1 d2 : Dict}
    (hne : k2 ≠ k) (h : EqExceptAt k d1 d2) :
    EqExceptAt k (dictInsert d1 k2 v) (dictInsert d2 k2 v) := by
  unfold dictInsert
  rw [h.anyKey k2]
  rcases ha : d2.any (fun kv => kv.1 == k2) with _ | _
  · simp only [Bool.false_eq_true, if_false]
    exact h.appendSame (k2, v)
  · simp only [if_true]
    exact h.mapPreserve hne

theorem foldl_insert_eqExcept (k : String) :
    ∀ (attrs : Dict) (d1 d2 : Dict), EqExceptAt k d1 d2 →
      attrs.any (fun kv => kv.1 == k) = true →
      attrs.foldl (fun acc kv => dictInsert acc kv.1 kv.2) d1 =
        attrs.foldl (fun acc kv => dictInsert acc kv.1 kv.2) d2 := by
  intro attrs
  induction attrs with
  | nil => intro d1 d2 _ hany; simp at hany
  | cons kv rest ih =>
    intro d1 d2 h hany
    rw [List.foldl_cons, List.foldl_cons]
    rcases hk : (kv.1 == k) with _ | _
    · rw [List.any_cons, hk, Bool.false_or] at hany
      exact ih _ _
        (h.insert_ne (by intro heq; rw [heq] at hk; simp at hk)) hany
    · have hkeq : kv.1 = k := by simpa using hk
      have heq2 : dictInsert d1 kv.1 kv.2 = dictInsert d2 kv.1 kv.2 := by
        rw [hkeq]
        exact h.insert_same
      rw [heq2]

/-- C9: when attrs carries one of the keys "subject", "action" or
"resource", the evaluation context holds the attrs-supplied value under
that key, and the corresponding positional argument has no influence on the
result of `evaluate_all`. -/
theorem spec_C9 (repo : PolicyRepository) (s a : String) (r : Option String)
    (attrs : Dict) :
    (∀ v, attrsOverride attrs "subject" = some v →
      dictLookup (buildContext s a r attrs) "subject" = some v ∧
      ∀ s2, evaluateAll repo s2 a r attrs = evaluateAll repo s a r attrs) ∧
    (∀ v, attrsOverride attrs "action" = some v →
      dictLookup (buildContext s a r attrs) "action" = some v ∧
      ∀ a2, evaluateAll repo s a2 r attrs = evaluateAll repo s a r attrs) ∧
    (∀ v, attrsOverride attrs "resource" = some v →
      dictLookup (buildContext s a r attrs) "resource" = some v ∧
      ∀ r2, evaluateAll repo s a r2 attrs = evaluateAll repo s a r attrs) := by
  refine ⟨?_, ?_, ?_⟩
  · intro v hov
    refine ⟨dictLookup_buildContext_some hov, ?_⟩
    intro s2
    have hctx : buildContext s2 a r attrs = buildContext s a r attrs := by
      unfold buildContext baseContext
      exact foldl_insert_eqExcept "subject" attrs _ _
        (.consKey (.str s2) (.str s) (.consSame _ (.consSame _ .nil)))
        (attrsOverride_any hov)
    unfold evaluateAll
    rw [hctx]
  · intro v hov
    refine ⟨dictLookup_buildContext_some hov, ?_⟩
    intro a2
    have hctx : buildContext s a2 r attrs = buildContext s a r attrs := by
      unfold buildContext baseContext
      exact foldl_insert_eqExcept "action" attrs _ _
        (.consSame _ (.consKey (.str a2) (.str a) (.consSame _ .nil)))
        (attrsOverride_any hov)
    unfold evaluateAll
    rw [hctx]
  · intro v hov
    refine ⟨dictLookup_buildContext_some hov, ?_⟩
    intro r2
    have hctx : buildContext s a r2 attrs = buildContext s a r attrs := by
      unfold buildContext baseContext
      exact foldl_insert_eqExcept "resource" attrs _ _
        (.consSame _ (.consSame _ (.consKey (.str (resourceOrStar r2))
          (.str (resourceOrStar r)) .nil)))
        (attrsOverride_any hov)
    unfold evaluateAll
    rw [hctx]

/-- C9 witness: an attrs-supplied subject lands in the context and makes
the positional subject irrelevant. -/
theorem spec_C9_witness :
    dictLookup (buildContext "alice" "payment.transfer" none
      [("subject", Value.str "bob")]) "subject" = some (Value.str "bob") ∧
    evaluateAll repoAmountCap "carol" "payment.transfer" none
      [("subject", Value.str "bob")] =
      evaluateAll repoAmountCap "alice" "payment.transfer" none
        [("subject", Value.str "bob")] :=
  ⟨((spec_C9 repoAmountCap "alice" "payment.transfer" none
      [("subject", Value.str "bob")]).1 (Value.str "bob") rfl).1,
   ((spec_C9 repoAmountCap "alice" "payment.transfer" none
      [("subject", Value.str "bob")]).1 (Value.str "bob") rfl).2 "carol"⟩

/-- C10: an empty-string resource argument is treated exactly like an
omitted one (Python `resource or "*"` is falsy on the empty string), and in
that case — absent an attrs override — the context's resource is the
wildcard string "*", not the empty string. -/
theorem spec_C10 (repo : PolicyRepository) (s a : String) (attrs : Dict) :
    evaluateAll repo s a (some "") attrs = evaluateAll repo s a none attrs ∧
    (attrsOverride attrs "resource" = none →
      dictLookup (buildContext s a (some "") attrs) "resource" =
        some (.str "*")) := by
  constructor
  · rfl
  · intro h
    rw [dictLookup_buildContext_none h]
    rfl

/-- C10 witness: concrete empty-string resource evaluation coincides with
the omitted-resource one and yields the wildcard in the context. -/
theorem spec_C10_witness :
    evaluateAll repoAmountCap "alice" "payment.transfer" (some "") [] =
      evaluateAll repoAmountCap "alice" "payment.transfer" none [] ∧
    dictLookup (buildContext "alice" "payment.transfer" (some "") [])
      "resource" = some (Value.str "*") :=
  ⟨(spec_C10 repoAmountCap "alice" "payment.transfer" []).1,
   (spec_C10 repoAmountCap "alice" "payment.transfer" []).2 rfl⟩

end Janus
